import Mathlib

/-!
Shallow embedding of `screenpipe-core/src/pipes.rs` (the pipe acquisition
and execution engine) and proofs about its behaviour.

Conventions of the embedding:
* Rust `String`/`&str` values become Lean `String`; character-level work is
  carried out on `String.data : List Char`.
* Filesystem, network and process interaction is made explicit: directory
  listings are `List String` of entry names in scan order, file trees are an
  inductive type, the subprocess is a record of its output lines and exit
  code, and JSON documents are an inductive `Json` type.
* `anyhow::bail!` error messages are represented by the `PipeError`
  enumeration (one constructor per distinct bail site).
* A Rust `.unwrap()` on a value that can be absent is modelled by `Option`,
  `none` standing for the panic.
* The stream-drain loops of `run_pipe` are given fuel semantics: a loop that
  consumes every amount of fuel without reaching its exit condition never
  terminates.
-/

namespace Pipes

/-- Error taxonomy: one constructor per `anyhow::bail!` site of `pipes.rs`.
`noEntryFile` is the bail in `find_pipe_file`, `denoNotFound` and
`spawnFailed` the two spawn-error bails of `run_pipe`, `nonZeroExit` the
exit-status bail of `run_pipe`, `invalidApiResponse` the non-array bail of
`download_github_folder`, and `invalidUrlFormat` the bail of
`get_raw_github_url`. -/
inductive PipeError where
  | noEntryFile
  | denoNotFound
  | spawnFailed
  | nonZeroExit (status : Int)
  | invalidApiResponse
  | invalidUrlFormat
  deriving DecidableEq

/-- The character class `[a-zA-Z0-9_-]` of the regex in `sanitize_pipe_name`:
characters that are kept unchanged. -/
def isAllowedChar (c : Char) : Bool :=
  (('a' ≤ c && c ≤ 'z') || ('A' ≤ c && c ≤ 'Z') || ('0' ≤ c && c ≤ '9')
    || c == '_' || c == '-')

/-- `re.replace_all(name, "-")` for `re = [^a-zA-Z0-9_-]`: every character
outside the class is replaced by a dash. -/
def sanitizeChars (cs : List Char) : List Char :=
  cs.map (fun c => if isAllowedChar c then c else '-')

/-- The characters of the literal suffix `"-ref-main"`. -/
def refMainChars : List Char :=
  ['-', 'r', 'e', 'f', '-', 'm', 'a', 'i', 'n']

/-- The characters of the literal suffix `"-ref-main/"`. -/
def refMainSlashChars : List Char :=
  refMainChars ++ ['/']

/-- Helper for `str::strip_suffix`, working on the reversed lists: strips
the (reversed) suffix from the front, `none` when it does not match. -/
def stripSuffixRev : List Char → List Char → Option (List Char)
  | cs, [] => some cs
  | [], _ :: _ => none
  | c :: cs, s :: ss => if c = s then stripSuffixRev cs ss else none

/-- Rust `str::strip_suffix`: `some` of the string with the suffix removed
when the string ends with it, `none` otherwise. -/
def stripSuffixList (cs suf : List Char) : Option (List Char) :=
  (stripSuffixRev cs.reverse suf.reverse).map List.reverse

/-- Core of `sanitize_pipe_name` on character lists: replace every character
outside `[a-zA-Z0-9_-]` with `-`, then
`strip_suffix("-ref-main/").or_else(strip_suffix("-ref-main")).unwrap_or(..)`. -/
def sanitizeCore (cs : List Char) : List Char :=
  match stripSuffixList (sanitizeChars cs) refMainSlashChars with
  | some r => r
  | none =>
    match stripSuffixList (sanitizeChars cs) refMainChars with
    | some r => r
    | none => sanitizeChars cs

/-- `sanitize_pipe_name` from `pipes.rs`. -/
def sanitize_pipe_name (name : String) : String :=
  String.mk (sanitizeCore name.data)

/-- `is_hidden_file` from `pipes.rs`, on the (UTF-8 valid) file name:
leading dot (`starts_with('.')`) or exactly `Thumbs.db`. -/
def isHiddenName (s : String) : Bool :=
  (match s.data with
   | c :: _ => c == '.'
   | [] => false) || s == "Thumbs.db"

/-- `Path::join` of two non-empty relative pieces, as used by the embedding
(Unix separator). -/
def joinPath (d f : String) : String :=
  d ++ "/" ++ f

/-- `get_raw_github_url` from `pipes.rs`. The `url::Url` parser is external;
the function is embedded over its observable output: the parsed host
(`host_str()`) and the path segments (`path_segments().collect()`).
Checks `host == github.com`, `segments.len() >= 5` and `segments[2] == "tree"`,
then builds
`https://api.github.com/repos/{owner}/{repo}/contents/{path}?ref={branch}`
from segments 0, 1, 3 and the `/`-joined tail from index 4; otherwise bails
with the invalid-URL-format error. -/
def get_raw_github_url (host : Option String) (segs : List String) :
    Except PipeError String :=
  if host = some "github.com" then
    if 5 ≤ segs.length then
      if segs.getD 2 "" = "tree" then
        Except.ok ("https://api.github.com/repos/" ++ segs.getD 0 "" ++ "/"
          ++ segs.getD 1 "" ++ "/contents/"
          ++ String.intercalate "/" (segs.drop 4)
          ++ "?ref=" ++ segs.getD 3 "")
      else Except.error PipeError.invalidUrlFormat
    else Except.error PipeError.invalidUrlFormat
  else Except.error PipeError.invalidUrlFormat

/-! ## JSON model for the GitHub listing response -/

/-- Untyped JSON values (`serde_json::Value`). Numbers are irrelevant to the
listing logic and carried as integers. -/
inductive Json where
  | null
  | bool (b : Bool)
  | num (n : Int)
  | str (s : String)
  | arr (items : List Json)
  | obj (fields : List (String × Json))

/-- `value[key]` of `serde_json`: field lookup on objects, `Null` for a
missing key and for every non-object value (never a panic). -/
def jsonIndex (v : Json) (key : String) : Json :=
  match v with
  | Json.obj fields =>
    match fields.find? (fun f => f.1 == key) with
    | some f => f.2
    | none => Json.null
  | _ => Json.null

/-- `Value::as_str`: `some` only on JSON strings. -/
def jsonAsStr : Json → Option String
  | Json.str s => some s
  | _ => none

/-- Outcome of processing the GitHub listing response in
`download_github_folder`: the names written to the destination (in order),
the `invalid response from github api` bail, or a Rust panic from an
`.unwrap()` on an absent/non-string field. -/
inductive FetchOutcome where
  | ok (written : List String)
  | invalidResponse
  | panicked
  deriving DecidableEq

/-- The per-item loop of `download_github_folder`:
`item["name"].as_str().unwrap()`, the hidden-file skip, then
`item["download_url"].as_str().unwrap()` and the write of the downloaded
bytes to `dest_dir/name`. `panicked` models an `unwrap` of `None`. -/
def processItems : List Json → List String → FetchOutcome
  | [], acc => FetchOutcome.ok acc.reverse
  | item :: rest, acc =>
    match jsonAsStr (jsonIndex item "name") with
    | none => FetchOutcome.panicked
    | some fileName =>
      if !(isHiddenName fileName) then
        match jsonAsStr (jsonIndex item "download_url") with
        | none => FetchOutcome.panicked
        | some _ => processItems rest (fileName :: acc)
      else processItems rest acc

/-- `download_github_folder` from `pipes.rs`, embedded over the JSON body of
the listing response (the HTTP layer is external): bail with
`invalidApiResponse` when the body is not an array, otherwise run the
per-item download loop. -/
def download_github_folder (contents : Json) : FetchOutcome :=
  match contents with
  | Json.arr items => processItems items []
  | _ => FetchOutcome.invalidResponse

/-! ## Directory trees and `copy_dir_all` -/

mutual
/-- A filesystem tree: a file with byte content, or a directory with named
entries in their scan order. -/
inductive FsTree where
  | file (content : List Nat)
  | dir (entries : EntryList)

/-- Entries of a directory: name plus subtree, in scan order. -/
inductive EntryList where
  | nil
  | cons (name : String) (tree : FsTree) (rest : EntryList)
end

mutual
/-- `copy_dir_all` from `pipes.rs` on a subtree: `fs::copy` for files
(byte-for-byte), recursive copy for directories. -/
def copyTree : FsTree → FsTree
  | FsTree.file c => FsTree.file c
  | FsTree.dir es => FsTree.dir (copyEntries es)

/-- The entry loop of `copy_dir_all`: hidden entries (by `is_hidden_file`)
are skipped entirely, visible entries are copied (directories via the
boxed recursive call). -/
def copyEntries : EntryList → EntryList
  | EntryList.nil => EntryList.nil
  | EntryList.cons name t rest =>
    if isHiddenName name then copyEntries rest
    else EntryList.cons name (copyTree t) (copyEntries rest)
end

mutual
/-- Look up the file content at a path (list of entry names) in a tree. -/
def lookupPath : FsTree → List String → Option (List Nat)
  | FsTree.file c, [] => some c
  | FsTree.file _, _ :: _ => none
  | FsTree.dir _, [] => none
  | FsTree.dir es, n :: rest => lookupEntry es n rest

/-- Find the first entry of the given name and continue the path lookup. -/
def lookupEntry : EntryList → String → List String → Option (List Nat)
  | EntryList.nil, _, _ => none
  | EntryList.cons name t es, n, rest =>
    if name = n then lookupPath t rest else lookupEntry es n rest
end

/-! ## `find_pipe_file` and the `run_pipe` launcher -/

/-- The entry-file test of `find_pipe_file`: name equals `pipe.js` or
`pipe.ts`, and the file is not hidden. -/
def isEntryFileName (n : String) : Bool :=
  (n == "pipe.js" || n == "pipe.ts") && !(isHiddenName n)

/-- `find_pipe_file` from `pipes.rs`, over the directory entries in scan
order: the first entry named `pipe.js`/`pipe.ts` (and not hidden) wins;
bails with `noEntryFile` when none matches. -/
def find_pipe_file : List String → Except PipeError String
  | [] => Except.error PipeError.noEntryFile
  | n :: rest =>
    if isEntryFileName n then Except.ok n else find_pipe_file rest

/-- The environment variables built by `run_pipe`: the
`std::env::vars()` snapshot followed by the four pushed entries
`SCREENPIPE_DIR`, `PIPE_ID`, `PIPE_FILE`, `PIPE_DIR`. -/
def pipe_env_vars (inherited : List (String × String))
    (screenpipeDir pipe mainModule pipeDir : String) :
    List (String × String) :=
  inherited ++
    [("SCREENPIPE_DIR", screenpipeDir), ("PIPE_ID", pipe),
     ("PIPE_FILE", mainModule), ("PIPE_DIR", pipeDir)]

/-- The command spawned by `run_pipe`: the fixed program name `deno` with
the fixed flag list, the per-pipe `deno.json` config and the entry file. -/
def run_pipe_command (pipeDir mainModule : String) : String × List String :=
  ("deno",
   ["run", "--config", joinPath pipeDir "deno.json", "--allow-read",
    "--allow-write", "--allow-net", "--allow-env", "--reload", mainModule])

/-- One `lines.next_line().await` on the modelled stream (remaining lines of
the subprocess): the next line while some remain, `Ok(None)` once the stream
has closed. The stream model has no read errors. -/
def next_line : List String → Except Unit (Option String) × List String
  | [] => (Except.ok none, [])
  | l :: ls => (Except.ok (some l), ls)

/-- The drain loop of the stdout/stderr tasks of `run_pipe`, with fuel:
`while let Ok(line) = lines.next_line().await { if let Some(line) = line { log } }`.
The loop exits only when `next_line` returns `Err`; an `Ok` result — also
`Ok(None)` at end of stream — continues the loop. `some logged` is normal
loop exit with the logged lines, `none` is fuel exhaustion (the loop still
running after `fuel` iterations). -/
def drainLoop : Nat → List String → Option (List String)
  | 0, _ => none
  | fuel + 1, ls =>
    match next_line ls with
    | (Except.error _, _) => some []
    | (Except.ok lineOpt, ls') =>
      (drainLoop fuel ls').map (fun logged =>
        match lineOpt with
        | some l => l :: logged
        | none => logged)

/-- Result of the spawn call of `run_pipe`: `ErrorKind::NotFound`, any other
spawn error, or a running child with its output lines and exit code. -/
inductive SpawnResult where
  | notFound
  | otherError
  | ok (stdoutLines stderrLines : List String) (exitCode : Int)

/-- Observable outcome of one `run_pipe` call. `result = none` means the
call has not returned within the given fuel (it is still awaiting);
`spawned` records whether the spawn call was reached; `childEnv` is the
environment passed to the spawn call, when reached; `envAfter` is the
process-wide environment when the call ends (the code never mutates it). -/
structure RunOutcome where
  result : Option (Except PipeError Unit)
  spawned : Bool
  childEnv : Option (List (String × String))
  envAfter : List (String × String)

/-- `run_pipe` from `pipes.rs`: locate the entry file (bail `noEntryFile`),
spawn `deno` (bail `denoNotFound` on `ErrorKind::NotFound`, `spawnFailed`
otherwise), drain stdout and stderr in two tasks, `child.wait()`, await both
drain tasks, then bail `nonZeroExit` unless the status is success. The
subprocess always exits (`exitCode` is available), but `run_pipe` returns
only if both drain tasks finish within the fuel. -/
def run_pipe (fuel : Nat) (pipe screenpipeDir : String)
    (processEnv : List (String × String)) (entries : List String)
    (spawn : SpawnResult) : RunOutcome :=
  let pipeDir := joinPath (joinPath screenpipeDir "pipes") pipe
  match find_pipe_file entries with
  | Except.error e => ⟨some (Except.error e), false, none, processEnv⟩
  | Except.ok f =>
    let mainModule := joinPath pipeDir f
    let envVars := pipe_env_vars processEnv screenpipeDir pipe mainModule pipeDir
    match spawn with
    | SpawnResult.notFound =>
      ⟨some (Except.error PipeError.denoNotFound), true, some envVars, processEnv⟩
    | SpawnResult.otherError =>
      ⟨some (Except.error PipeError.spawnFailed), true, some envVars, processEnv⟩
    | SpawnResult.ok outLines errLines exitCode =>
      match drainLoop fuel outLines with
      | none => ⟨none, true, some envVars, processEnv⟩
      | some _ =>
        match drainLoop fuel errLines with
        | none => ⟨none, true, some envVars, processEnv⟩
        | some _ =>
          if exitCode = 0 then
            ⟨some (Except.ok ()), true, some envVars, processEnv⟩
          else
            ⟨some (Except.error (PipeError.nonZeroExit exitCode)), true,
             some envVars, processEnv⟩

/-! ## `find_deno` (Runtime Locator) and `download_pipe` -/

/-- The world observed by `find_deno` (Linux build of `pipes.rs`):
the `which` lookup result, the current working directory, the directory of
the running executable, and the filesystem predicates used by the search. -/
structure DenoWorld where
  whichDeno : Option String
  cwd : Option String
  exeDir : Option String
  isFile : String → Bool
  pathExists : String → Bool

/-- `DENO_EXECUTABLE_NAME` (non-Windows build). -/
def DENO_EXECUTABLE_NAME : String := "deno"

/-- The executable-folder part of `find_deno`: `deno` next to the running
executable, then (Linux) in the `lib` subfolder next to it. -/
def findDenoExeFolder (w : DenoWorld) : Option String :=
  match w.exeDir with
  | none => none
  | some d =>
    let inExe := joinPath d DENO_EXECUTABLE_NAME
    if w.pathExists inExe then some inExe
    else
      let inLib := joinPath (joinPath d "lib") DENO_EXECUTABLE_NAME
      if w.pathExists inLib then some inLib else none

/-- `find_deno` from `pipes.rs` (Linux build): `which`, then the current
working directory (`is_file() && exists()`), then the executable folder and
its `lib` subfolder; `none` when every probe fails. -/
def find_deno (w : DenoWorld) : Option String :=
  match w.whichDeno with
  | some p => some p
  | none =>
    match w.cwd with
    | some cwd =>
      let inCwd := joinPath cwd DENO_EXECUTABLE_NAME
      if w.isFile inCwd && w.pathExists inCwd then some inCwd
      else findDenoExeFolder w
    | none => findDenoExeFolder w

/-- Split a character list at every `/` (the pieces between separators,
empty pieces included), as `str::split` on the path separator. -/
def splitPath : List Char → List (List Char)
  | [] => [[]]
  | c :: cs =>
    let r := splitPath cs
    if c = '/' then [] :: r
    else
      match r with
      | [] => [[c]]
      | h :: t => (c :: h) :: t

/-- Rust `Path::file_name` on a Unix path string: the last component after
dropping empty and `.` components; `none` when there is no component left or
the last component is `..`. -/
def rustFileName (path : String) : Option String :=
  let comps := (splitPath path.data).filter
    (fun c => !(c.isEmpty || c == ['.']))
  match comps.getLast? with
  | none => none
  | some c => if c == ['.', '.'] then none else some (String.mk c)

/-- The pipe-name derivation of `download_pipe`:
`sanitize_pipe_name(Path::new(source).file_name().unwrap().to_str().unwrap())`.
`none` models the panic of `.unwrap()` when the source has no final path
component. -/
def download_pipe_name (source : String) : Option String :=
  (rustFileName source).map (fun f => sanitize_pipe_name f)

/-- The example source tree of the spec: hidden `.secret`, visible `a.txt`,
and subdirectory `sub` containing `b.txt`. -/
def exampleSourceTree : FsTree :=
  FsTree.dir (EntryList.cons ".secret" (FsTree.file [1])
    (EntryList.cons "a.txt" (FsTree.file [10, 20])
      (EntryList.cons "sub"
        (FsTree.dir (EntryList.cons "b.txt" (FsTree.file [30]) EntryList.nil))
        EntryList.nil)))

/-- The expected copy of `exampleSourceTree`: `a.txt` and `sub/b.txt` with
identical content, no `.secret`. -/
def exampleCopiedTree : FsTree :=
  FsTree.dir (EntryList.cons "a.txt" (FsTree.file [10, 20])
    (EntryList.cons "sub"
      (FsTree.dir (EntryList.cons "b.txt" (FsTree.file [30]) EntryList.nil))
      EntryList.nil))

/-! ## Helper lemmas -/

theorem mk_data (s : String) : String.mk s.data = s := rfl

theorem sanitizeChars_append (a b : List Char) :
    sanitizeChars (a ++ b) = sanitizeChars a ++ sanitizeChars b :=
  List.map_append _ a b

theorem stripSuffixRev_self_append (ss rest : List Char) :
    stripSuffixRev (ss ++ rest) ss = some rest := by
  induction ss with
  | nil => simp [stripSuffixRev]
  | cons s ss ih => simp [stripSuffixRev, ih]

theorem stripSuffixList_append (X suf : List Char) :
    stripSuffixList (X ++ suf) suf = some X := by
  unfold stripSuffixList
  rw [List.reverse_append, stripSuffixRev_self_append]
  simp

theorem stripSuffixRev_eq_some (rs ss rest : List Char)
    (h : stripSuffixRev rs ss = some rest) : rs = ss ++ rest := by
  induction ss generalizing rs with
  | nil =>
    simp [stripSuffixRev] at h
    simpa using h
  | cons s ss ih =>
    match rs with
    | [] => simp [stripSuffixRev] at h
    | c :: cs =>
      by_cases hc : c = s
      · subst hc
        simp only [stripSuffixRev, if_pos rfl] at h
        simpa using ih cs h
      · simp [stripSuffixRev, hc] at h

theorem stripSuffixList_eq_some (cs suf r : List Char)
    (h : stripSuffixList cs suf = some r) : cs = r ++ suf := by
  unfold stripSuffixList at h
  obtain ⟨rr, hr, hrev⟩ := Option.map_eq_some'.mp h
  have h1 := stripSuffixRev_eq_some _ _ _ hr
  have h2 : cs = rr.reverse ++ suf := by
    have h3 := congrArg List.reverse h1
    simpa using h3
  rw [h2, hrev]

theorem mem_sanitizeChars_allowed (cs : List Char) (c : Char)
    (hc : c ∈ sanitizeChars cs) : isAllowedChar c = true := by
  unfold sanitizeChars at hc
  obtain ⟨a, _, ha⟩ := List.mem_map.mp hc
  by_cases h : isAllowedChar a
  · rw [if_pos h] at ha; rwa [← ha]
  · rw [if_neg h] at ha; rw [← ha]; decide

theorem sanitizeChars_of_allowed (cs : List Char)
    (h : ∀ c ∈ cs, isAllowedChar c = true) : sanitizeChars cs = cs := by
  induction cs with
  | nil => rfl
  | cons c cs ih =>
    unfold sanitizeChars at ih ⊢
    simp only [List.map_cons]
    rw [if_pos (h c (by simp)), ih (fun d hd => h d (by simp [hd]))]

theorem strip_snoc_ne (cs suf : List Char) (a b : Char) (hab : a ≠ b) :
    stripSuffixList (cs ++ [a]) (suf ++ [b]) = none := by
  unfold stripSuffixList
  rw [List.reverse_append, List.reverse_append]
  simp [stripSuffixRev, hab]

theorem strip_slash_of_allowed (cs : List Char)
    (hall : ∀ c ∈ cs, isAllowedChar c = true) :
    stripSuffixList cs refMainSlashChars = none := by
  unfold stripSuffixList
  have hrev : refMainSlashChars.reverse = '/' :: refMainChars.reverse := by decide
  rw [hrev]
  cases hcs : cs.reverse with
  | nil => rfl
  | cons c rest =>
    have hc : c ∈ cs := by
      rw [← List.mem_reverse, hcs]; simp
    have hcne : c ≠ '/' := by
      intro h
      subst h
      exact absurd (hall _ hc) (by decide)
    simp [stripSuffixRev, hcne]

theorem strip_main_of_no_suffix (cs : List Char)
    (hsuf : ∀ t, cs ≠ t ++ refMainChars) :
    stripSuffixList cs refMainChars = none := by
  cases h : stripSuffixList cs refMainChars with
  | none => rfl
  | some r => exact absurd (stripSuffixList_eq_some _ _ _ h) (hsuf r)

theorem sanitizeCore_of_allowed (cs : List Char)
    (hall : ∀ c ∈ cs, isAllowedChar c = true)
    (hsuf : ∀ t, cs ≠ t ++ refMainChars) : sanitizeCore cs = cs := by
  unfold sanitizeCore
  rw [sanitizeChars_of_allowed cs hall, strip_slash_of_allowed cs hall,
    strip_main_of_no_suffix cs hsuf]

theorem mem_sanitizeCore_allowed (cs : List Char) (c : Char)
    (hc : c ∈ sanitizeCore cs) : isAllowedChar c = true := by
  unfold sanitizeCore at hc
  cases h1 : stripSuffixList (sanitizeChars cs) refMainSlashChars with
  | some r =>
    rw [h1] at hc
    have h2 := stripSuffixList_eq_some _ _ _ h1
    exact mem_sanitizeChars_allowed cs c (by rw [h2]; exact List.mem_append_left _ hc)
  | none =>
    rw [h1] at hc
    cases h2 : stripSuffixList (sanitizeChars cs) refMainChars with
    | some r =>
      rw [h2] at hc
      have h3 := stripSuffixList_eq_some _ _ _ h2
      exact mem_sanitizeChars_allowed cs c (by rw [h3]; exact List.mem_append_left _ hc)
    | none =>
      rw [h2] at hc
      exact mem_sanitizeChars_allowed cs c hc

theorem sanitizeCore_append_refMain (X : List Char) :
    sanitizeCore (X ++ refMainChars) = sanitizeChars X := by
  unfold sanitizeCore
  rw [sanitizeChars_append]
  have hr : sanitizeChars refMainChars = refMainChars := by decide
  rw [hr]
  have hsplit : sanitizeChars X ++ refMainChars
      = (sanitizeChars X ++ ['-', 'r', 'e', 'f', '-', 'm', 'a', 'i']) ++ ['n'] := by
    simp [refMainChars]
  have hslash : refMainSlashChars = refMainChars ++ ['/'] := rfl
  rw [hsplit, hslash, strip_snoc_ne _ _ _ _ (by decide)]
  rw [← hsplit, stripSuffixList_append]

theorem sanitizeCore_append_refMainSlash (X : List Char) :
    sanitizeCore (X ++ refMainSlashChars)
      = sanitizeChars X ++ refMainChars ++ ['-'] := by
  unfold sanitizeCore
  rw [sanitizeChars_append]
  have hr : sanitizeChars refMainSlashChars = refMainChars ++ ['-'] := by decide
  rw [hr]
  have hform : sanitizeChars X ++ (refMainChars ++ ['-'])
      = (sanitizeChars X ++ refMainChars) ++ ['-'] := by simp
  have hslash : refMainSlashChars = refMainChars ++ ['/'] := rfl
  rw [hform, hslash, strip_snoc_ne _ _ _ _ (by decide)]
  have hmain : refMainChars = ['-', 'r', 'e', 'f', '-', 'm', 'a', 'i'] ++ ['n'] := rfl
  rw [hmain, strip_snoc_ne _ _ _ _ (by decide)]

/-! ## Claim theorems -/

/-- C4 counterexample: the claim fails for the identifier `"x-ref-main/"`.
The character-replacement step runs first and turns the trailing `/` into
`-`, so the `-ref-main/` strip never fires: the sanitizer yields
`"x-ref-main-"`, not `sanitize_pipe_name "x" = "x"`. -/
theorem sanitize_slash_suffix_counterexample :
    sanitize_pipe_name "x-ref-main/" = "x-ref-main-"
    ∧ sanitize_pipe_name "x" = "x"
    ∧ sanitize_pipe_name "x-ref-main/" ≠ sanitize_pipe_name "x" :=
  ⟨by decide, by decide, by decide⟩

/-- C4 (amended): for every identifier ending in the literal `-ref-main`,
the sanitizer's result is the character-replacement of the identifier with
that suffix removed. An identifier ending in `-ref-main/` is not stripped:
its `/` is first replaced by `-`, so the result is the character-replacement
of the whole identifier, ending in `-ref-main-`. -/
theorem sanitize_refMain_suffix_behaviour (s : String) :
    sanitize_pipe_name (s ++ "-ref-main") = String.mk (sanitizeChars s.data)
    ∧ sanitize_pipe_name (s ++ "-ref-main/")
        = String.mk (sanitizeChars s.data ++ refMainChars ++ ['-']) := by
  constructor
  · show String.mk (sanitizeCore (s ++ "-ref-main").data) = _
    rw [String.data_append]
    have hdat : ("-ref-main" : String).data = refMainChars := by decide
    rw [hdat, sanitizeCore_append_refMain]
  · show String.mk (sanitizeCore (s ++ "-ref-main/").data) = _
    rw [String.data_append]
    have hdat : ("-ref-main/" : String).data = refMainSlashChars := by decide
    rw [hdat, sanitizeCore_append_refMainSlash]

/-- C7: for every input string the sanitizer's output contains only
characters of `[A-Za-z0-9_-]`; every string already consisting only of those
characters and not ending in `-ref-main` is a fixed point; and
`"my pipe!name-ref-main"` sanitizes to `"my-pipe-name"`. -/
theorem sanitize_charset_fixed_point_example :
    (∀ (s : String), ∀ c ∈ (sanitize_pipe_name s).data, isAllowedChar c = true)
    ∧ (∀ s : String, (∀ c ∈ s.data, isAllowedChar c = true) →
        (∀ t, s.data ≠ t ++ refMainChars) → sanitize_pipe_name s = s)
    ∧ sanitize_pipe_name "my pipe!name-ref-main" = "my-pipe-name" := by
  refine ⟨?_, ?_, by decide⟩
  · intro s c hc
    exact mem_sanitizeCore_allowed s.data c hc
  · intro s hall hsuf
    show String.mk (sanitizeCore s.data) = s
    rw [sanitizeCore_of_allowed s.data hall hsuf]

/-- C7 witness: the fixed-point part applied to `"abc_1"` and the charset
part applied to the sanitization of `"my pipe"`. -/
theorem sanitize_charset_fixed_point_example_witness :
    sanitize_pipe_name "abc_1" = "abc_1" ∧ isAllowedChar 'm' = true := by
  constructor
  · exact sanitize_charset_fixed_point_example.2.1 "abc_1" (by decide)
      (by
        intro t h
        have hl := congrArg List.length h
        simp [refMainChars] at hl)
  · exact sanitize_charset_fixed_point_example.1 "my pipe" 'm' (by decide)

/-- C5: a `github.com` URL with path `/owner/repo/tree/main/sub/dir` is
translated to the listing endpoint
`https://api.github.com/repos/owner/repo/contents/sub/dir?ref=main`; with the
same host, fewer than 5 path segments or a segment at index 2 other than
`tree` is rejected with the invalid-URL-format error. -/
theorem github_url_translation :
    get_raw_github_url (some "github.com") ["owner", "repo", "tree", "main", "sub", "dir"]
      = Except.ok "https://api.github.com/repos/owner/repo/contents/sub/dir?ref=main"
    ∧ (∀ segs : List String, segs.length < 5 →
        get_raw_github_url (some "github.com") segs
          = Except.error PipeError.invalidUrlFormat)
    ∧ (∀ segs : List String, segs.getD 2 "" ≠ "tree" →
        get_raw_github_url (some "github.com") segs
          = Except.error PipeError.invalidUrlFormat) := by
  refine ⟨rfl, ?_, ?_⟩
  · intro segs h
    unfold get_raw_github_url
    rw [if_pos rfl, if_neg (by omega)]
  · intro segs h
    unfold get_raw_github_url
    rw [if_pos rfl]
    by_cases h5 : 5 ≤ segs.length
    · rw [if_pos h5, if_neg h]
    · rw [if_neg h5]

/-- C5 witness: rejection of a two-segment path and of a five-segment path
whose index-2 segment is `blob` instead of `tree`. -/
theorem github_url_translation_witness :
    get_raw_github_url (some "github.com") ["owner", "repo"]
      = Except.error PipeError.invalidUrlFormat
    ∧ get_raw_github_url (some "github.com") ["o", "r", "blob", "main", "f"]
      = Except.error PipeError.invalidUrlFormat :=
  ⟨github_url_translation.2.1 ["owner", "repo"] (by decide),
   github_url_translation.2.2 ["o", "r", "blob", "main", "f"] (by decide)⟩

/-- C2: `download_github_folder` bails with `invalidApiResponse` when the
listing body is not an array (for example any JSON object), but a listed
element whose `name` is absent, or whose `download_url` is not a string
(such as the `null` GitHub returns for a subdirectory entry), makes the code
panic through `.unwrap()` instead of returning `invalidApiResponse` as the
claim states. -/
theorem github_listing_shape_handling :
    (∀ fields, download_github_folder (Json.obj fields) = FetchOutcome.invalidResponse)
    ∧ download_github_folder
        (Json.arr [Json.obj [("name", Json.str "docs"), ("download_url", Json.null)]])
        = FetchOutcome.panicked
    ∧ download_github_folder (Json.arr [Json.obj [("download_url", Json.str "u")]])
        = FetchOutcome.panicked :=
  ⟨fun _ => rfl, by decide, by decide⟩

/-- C10: `download_pipe` derives the pipe name by unwrapping
`Path::file_name` of the source, so sources without a final path component
(`"/"`, `".."`) panic rather than produce an `InvalidSource` error, while
every source with a final component is sanitized without panicking. -/
theorem download_pipe_panics_without_file_name :
    download_pipe_name "/" = none
    ∧ download_pipe_name ".." = none
    ∧ (∀ (s f : String), rustFileName s = some f →
        download_pipe_name s = some (sanitize_pipe_name f)) := by
  refine ⟨by decide, by decide, ?_⟩
  intro s f h
  unfold download_pipe_name
  rw [h]
  rfl

/-- C10 witness: the non-panicking branch applied to `"/tmp/my pipe"`. -/
theorem download_pipe_panics_without_file_name_witness :
    download_pipe_name "/tmp/my pipe" = some (sanitize_pipe_name "my pipe") :=
  download_pipe_panics_without_file_name.2.2 "/tmp/my pipe" "my pipe" (by decide)

/-- C3 counterexample: in a world where the runtime locator resolves `deno`
to `/work/deno` (found in the current working directory, not on `PATH`),
`run_pipe` still spawns the fixed program name `deno`: the spawned name
differs from the locator's result, refuting the claim that the launcher
spawns at the path resolved by the locator. -/
theorem launcher_ignores_locator_counterexample :
    find_deno ⟨none, some "/work", none, fun p => p == "/work/deno",
      fun p => p == "/work/deno"⟩ = some "/work/deno"
    ∧ (run_pipe_command "/root/pipes/p" "/root/pipes/p/pipe.js").1 = "deno"
    ∧ ("deno" : String) ≠ "/work/deno" :=
  ⟨rfl, rfl, by decide⟩

/-- C3 (amended): `run_pipe` spawns the runtime by the fixed executable name
`deno` (left to the operating system's `PATH` resolution), for every pipe
directory and entry file; `find_deno` implements the ordered search
(starting with the `PATH` lookup) but `run_pipe` never consults it. -/
theorem launcher_spawns_fixed_deno_name :
    (∀ (pipeDir mainModule : String),
      (run_pipe_command pipeDir mainModule).1 = DENO_EXECUTABLE_NAME)
    ∧ (∀ (w : DenoWorld) (p : String), w.whichDeno = some p → find_deno w = some p) := by
  refine ⟨fun _ _ => rfl, ?_⟩
  intro w p h
  unfold find_deno
  rw [h]

/-- C3 witness: the fixed name for a concrete command, and the locator's
`PATH` step for a concrete world. -/
theorem launcher_spawns_fixed_deno_name_witness :
    find_deno ⟨some "/usr/bin/deno", none, none, fun _ => false, fun _ => false⟩
      = some "/usr/bin/deno"
    ∧ (run_pipe_command "/d" "/d/pipe.ts").1 = DENO_EXECUTABLE_NAME :=
  ⟨launcher_spawns_fixed_deno_name.2 _ "/usr/bin/deno" rfl,
   launcher_spawns_fixed_deno_name.1 "/d" "/d/pipe.ts"⟩

theorem drainLoop_eq_none (fuel : Nat) (ls : List String) :
    drainLoop fuel ls = none := by
  induction fuel generalizing ls with
  | zero => rfl
  | succ n ih =>
    cases ls with
    | nil => simp [drainLoop, next_line, ih]
    | cons l ls => simp [drainLoop, next_line, ih]

theorem no_entry_find_pipe_file (entries : List String)
    (h : ∀ m ∈ entries, isEntryFileName m = false) :
    find_pipe_file entries = Except.error PipeError.noEntryFile := by
  induction entries with
  | nil => rfl
  | cons n rest ih =>
    unfold find_pipe_file
    rw [h n (by simp), if_neg (by simp)]
    exact ih (fun m hm => h m (by simp [hm]))

/-- C1: the claim says the drain loops terminate when their stream closes
and `run_pipe` then returns. In the code the loop condition
`while let Ok(line) = lines.next_line().await` also matches the `Ok(None)`
returned at end of stream, so the loop never reaches its only exit (an
`Err`): for every amount of fuel the drain loop is still running, and
`run_pipe` — which awaits both drain tasks after the subprocess exits —
never returns, for any output and any exit code. -/
theorem stdout_drain_never_terminates :
    (∀ (fuel : Nat) (ls : List String), drainLoop fuel ls = none)
    ∧ ∀ (fuel : Nat) (outLines errLines : List String) (code : Int)
        (pipe dir : String) (env : List (String × String)),
      (run_pipe fuel pipe dir env ["pipe.js"] (SpawnResult.ok outLines errLines code)).result
        = none := by
  refine ⟨drainLoop_eq_none, ?_⟩
  intro fuel outLines errLines code pipe dir env
  unfold run_pipe
  simp [find_pipe_file, isEntryFileName, isHiddenName, drainLoop_eq_none]

/-- C6: the launcher resolves the entry file to the first `pipe.js`/`pipe.ts`
encountered in the directory scan, and a directory without an entry file
makes `run_pipe` fail with `noEntryFile` before any spawn is attempted. -/
theorem entry_file_first_match_no_spawn :
    (∀ (pre post : List String) (n : String),
      (∀ m ∈ pre, isEntryFileName m = false) → isEntryFileName n = true →
      find_pipe_file (pre ++ n :: post) = Except.ok n)
    ∧ ∀ (fuel : Nat) (pipe dir : String) (env : List (String × String))
        (entries : List String) (spawn : SpawnResult),
      (∀ m ∈ entries, isEntryFileName m = false) →
      (run_pipe fuel pipe dir env entries spawn).result
          = some (Except.error PipeError.noEntryFile)
        ∧ (run_pipe fuel pipe dir env entries spawn).spawned = false := by
  constructor
  · intro pre post n hpre hn
    induction pre with
    | nil => simp [find_pipe_file, hn]
    | cons m pre ih =>
      unfold find_pipe_file
      simp only [List.cons_append]
      rw [if_neg (by simp [hpre m (by simp)])]
      exact ih (fun x hx => hpre x (by simp [hx]))
  · intro fuel pipe dir env entries spawn h
    unfold run_pipe
    rw [no_entry_find_pipe_file entries h]
    exact ⟨rfl, rfl⟩

/-- C6 witness: with both entry files present, the first of the scan
(`pipe.ts` here) wins; a directory with only `a.txt` and `deno.json` yields
`noEntryFile` with no spawn. -/
theorem entry_file_first_match_no_spawn_witness :
    find_pipe_file [".cfg", "data.txt", "pipe.ts", "pipe.js"] = Except.ok "pipe.ts"
    ∧ (run_pipe 7 "p" "/root" [] ["a.txt", "deno.json"] SpawnResult.notFound).result
        = some (Except.error PipeError.noEntryFile)
    ∧ (run_pipe 7 "p" "/root" [] ["a.txt", "deno.json"] SpawnResult.notFound).spawned
        = false := by
  refine ⟨?_, ?_, ?_⟩
  · exact entry_file_first_match_no_spawn.1 [".cfg", "data.txt"] ["pipe.js"] "pipe.ts"
      (by decide) (by decide)
  · exact (entry_file_first_match_no_spawn.2 7 "p" "/root" [] ["a.txt", "deno.json"]
      SpawnResult.notFound (by decide)).1
  · exact (entry_file_first_match_no_spawn.2 7 "p" "/root" [] ["a.txt", "deno.json"]
      SpawnResult.notFound (by decide)).2

/-- C9: whenever the entry file is located, the environment handed to the
spawn call is exactly the inherited snapshot followed by the four injected
entries `SCREENPIPE_DIR`, `PIPE_ID`, `PIPE_FILE`, `PIPE_DIR` (built fresh
from the call's own arguments), and the process-wide environment is left
unchanged by the call. -/
theorem run_pipe_env_inherited_plus_four :
    ∀ (fuel : Nat) (pipe dir : String) (env : List (String × String))
      (entries : List String) (spawn : SpawnResult) (f : String),
      find_pipe_file entries = Except.ok f →
      (run_pipe fuel pipe dir env entries spawn).childEnv
        = some (env ++
            [("SCREENPIPE_DIR", dir), ("PIPE_ID", pipe),
             ("PIPE_FILE", joinPath (joinPath (joinPath dir "pipes") pipe) f),
             ("PIPE_DIR", joinPath (joinPath dir "pipes") pipe)])
      ∧ (run_pipe fuel pipe dir env entries spawn).envAfter = env := by
  intro fuel pipe dir env entries spawn f h
  cases spawn with
  | notFound => constructor <;> simp [run_pipe, h, pipe_env_vars]
  | otherError => constructor <;> simp [run_pipe, h, pipe_env_vars]
  | ok outLines errLines code =>
    constructor <;> simp [run_pipe, h, drainLoop_eq_none, pipe_env_vars]

/-- C9 witness: a concrete launch with one inherited variable receives that
variable plus the four injected entries, and leaves the process environment
as it was. -/
theorem run_pipe_env_inherited_plus_four_witness :
    (run_pipe 0 "q" "/root" [("PATH", "/usr/bin")] ["pipe.js"] SpawnResult.notFound).childEnv
      = some [("PATH", "/usr/bin"),
          ("SCREENPIPE_DIR", "/root"), ("PIPE_ID", "q"),
          ("PIPE_FILE", "/root/pipes/q/pipe.js"), ("PIPE_DIR", "/root/pipes/q")]
    ∧ (run_pipe 0 "q" "/root" [("PATH", "/usr/bin")] ["pipe.js"] SpawnResult.notFound).envAfter
      = [("PATH", "/usr/bin")] := by
  have h := run_pipe_env_inherited_plus_four 0 "q" "/root" [("PATH", "/usr/bin")]
    ["pipe.js"] SpawnResult.notFound "pipe.js" rfl
  exact ⟨h.1, h.2⟩

mutual
theorem lookupPath_copyTree : ∀ (t : FsTree) (p : List String),
    lookupPath (copyTree t) p = if p.any isHiddenName then none else lookupPath t p
  | FsTree.file c, p => by
      cases p <;> simp [copyTree, lookupPath]
  | FsTree.dir es, [] => by simp [copyTree, lookupPath]
  | FsTree.dir es, n :: rest => by
      have h := lookupEntry_copyEntries es n rest
      simp only [copyTree, lookupPath, List.any_cons]
      rw [h]

theorem lookupEntry_copyEntries : ∀ (es : EntryList) (n : String) (rest : List String),
    lookupEntry (copyEntries es) n rest
      = if isHiddenName n || rest.any isHiddenName then none
        else lookupEntry es n rest
  | EntryList.nil, n, rest => by simp [copyEntries, lookupEntry]
  | EntryList.cons name t es, n, rest => by
      by_cases hname : isHiddenName name
      · have ih := lookupEntry_copyEntries es n rest
        simp only [copyEntries, if_pos hname]
        rw [ih]
        by_cases hn : isHiddenName n
        · simp [hn]
        · have hne : name ≠ n := fun e => hn (e ▸ hname)
          simp [hn, lookupEntry, hne]
      · simp only [copyEntries, if_neg hname]
        by_cases heq : name = n
        · subst heq
          have ih := lookupPath_copyTree t rest
          simp [lookupEntry, ih, hname]
        · have ih := lookupEntry_copyEntries es n rest
          simp [lookupEntry, heq, ih]
end

/-- C8: the copy of a tree contains a file at a path exactly when the source
does and no path component is hidden — hidden entries are skipped entirely
(not copied, not recursed into), visible files keep their byte content and
visible subdirectories are recursed into preserving relative structure. The
spec's example source (`.secret`, `a.txt`, `sub/b.txt`) copies to exactly
`a.txt` and `sub/b.txt` with identical content and no `.secret`. -/
theorem copy_skips_hidden_preserves_visible :
    (∀ (t : FsTree) (p : List String),
      lookupPath (copyTree t) p = if p.any isHiddenName then none else lookupPath t p)
    ∧ copyTree exampleSourceTree = exampleCopiedTree := by
  refine ⟨lookupPath_copyTree, ?_⟩
  simp [exampleSourceTree, exampleCopiedTree, copyTree, copyEntries, isHiddenName]

end Pipes
